import Mathlib

/-!
Verification of the tattler-client-go persistent retry/delivery subsystem.

The development shallowly embeds the repository's `fscache` package (a
filesystem-backed key→bytes store plus a process-wide path→instance
registry) and the persistence-related control flow of `tattler_go`
(`PersistTask`, `PrepareNotification`).

Modelling conventions:
- A store's root directory is a list of named entries in enumeration
  order.  Each entry records whether it is a directory, its content
  bytes, its modification time (integer nanoseconds), and a fault flag
  `removeFails` saying whether `os.Remove` / `os.RemoveAll` on this
  entry fails (the environment's choice, e.g. permissions).
- Fallible I/O outcomes that the Go code observes through returned
  errors (`os.CreateTemp`, `f.Write`, `os.Rename`, `os.ReadDir`) are
  supplied as explicit boolean parameters per call.
- Bytes are `List Nat`; a Go `nil` slice is `Option.none` while an
  empty-but-present slice is `some []`.
- Wall-clock time is an explicit `now : Int` parameter; a record's age
  is `now - modTime`, matching `time.Since(fstat.ModTime())`.
-/

namespace FSCache

/-- Byte strings, as lists of byte values. -/
abbrev Bytes := List Nat

/-- One directory entry as the Go code observes it through `os.ReadDir`
and `os.Stat`: name (held by the surrounding association list), kind,
content, modification time, and whether removing it fails. -/
structure Entry where
  isDir : Bool
  content : Bytes
  modTime : Int
  removeFails : Bool
deriving DecidableEq

/-- The state of a store's root directory: entries in enumeration order. -/
abbrev Dir := List (String × Entry)

/-- Model of `os.Stat(path.Join(fc.path, key))` restricted to the root:
the entry named `key`, if any. -/
def findEntry : Dir → String → Option Entry
  | [], _ => none
  | (n, e) :: rest, k => if n = k then some e else findEntry rest k

/-- Removing the entry named `k` from the directory. -/
def eraseKey (d : Dir) (k : String) : Dir :=
  d.filter (fun ne => ne.1 != k)

/-- A fresh regular file holding `v`, last written at time `now`. -/
def mkFile (v : Bytes) (now : Int) : Entry :=
  { isDir := false, content := v, modTime := now, removeFails := false }

/-- Effect of `os.Rename(tempname, path.Join(fc.path, key))` succeeding:
the entry named `key` now holds `v` with modification time `now`. -/
def setKey (d : Dir) (k : String) (v : Bytes) (now : Int) : Dir :=
  eraseKey d k ++ [(k, mkFile v now)]

/-- Per-call environment of `Set`: whether `os.CreateTemp` fails, whether
`f.Write` fails, whether `os.Rename` fails, and the temporary file name
`os.CreateTemp` picks (in the source, `key` followed by a dot and a
random suffix, so it never equals an existing name). -/
structure SetEnv where
  tmpFail : Bool
  writeFail : Bool
  renameFail : Bool
  tmpName : String
deriving DecidableEq

/-- Error text of the `os.CreateTemp` failure branch of `Set`. -/
def tmpFailMsg : String := "failed to create tempfile to cache key"

/-- Error text returned when `f.Write` fails inside `Set`. -/
def writeFailMsg : String := "write failed"

/-- `FSCache.Set` from the source, for a non-nil receiver.  Branches, in
source order: a nil value returns success at once; a `CreateTemp`
failure is reported; a write failure removes the temporary file (hence
the directory is unchanged) and is reported; then the file is renamed
into place — the source discards the `os.Rename` error, so on a rename
failure `Set` still returns success and the temporary file stays behind
under its temporary name.  An `error` result leaves the directory
unchanged, which is faithful: on the two reported failures the code has
created nothing, or has removed the temporary file it created. -/
def Set (d : Dir) (key : String) (value : Option Bytes) (now : Int)
    (env : SetEnv) : Except String Dir :=
  match value with
  | none => .ok d
  | some v =>
    if env.tmpFail then .error tmpFailMsg
    else if env.writeFail then .error writeFailMsg
    else if env.renameFail then .ok (setKey d env.tmpName v now)
    else .ok (setKey d key v now)

/-- `FSCache.GetExpiry` from the source: stat the key (absent entry →
nil); if `maxAge` is positive and the entry is older, return nil; then
`os.ReadFile`, which fails — returning nil — exactly when the entry is a
directory. -/
def GetExpiry (d : Dir) (key : String) (maxAge : Int) (now : Int) :
    Option Bytes :=
  match findEntry d key with
  | none => none
  | some e =>
    if 0 < maxAge ∧ now - e.modTime > maxAge then none
    else if e.isDir then none
    else some e.content

/-- `FSCache.Get` from the source: `GetExpiry` with a zero duration. -/
def Get (d : Dir) (key : String) (now : Int) : Option Bytes :=
  GetExpiry d key 0 now

/-- Error text of the `os.ReadDir` failure branch. -/
def scanFailMsg : String := "failed to scan path"

/-- `FSCache.List` from the source: names of the non-directory entries,
or an error if the directory scan fails. -/
def ListOp (d : Dir) (scanFail : Bool) : Except String (List String) :=
  if scanFail then .error scanFailMsg
  else .ok ((d.filter (fun ne => !ne.2.isDir)).map (fun ne => ne.1))

/-- `FSCache.Len` from the source: the number of non-directory entries,
degrading to 0 when the directory scan fails. -/
def Len (d : Dir) (scanFail : Bool) : Nat :=
  if scanFail then 0
  else (d.filter (fun ne => !ne.2.isDir)).length

/-- Error text produced when `os.RemoveAll` fails inside `Clear`. -/
def removeFailMsg : String := "remove failed"

/-- `FSCache.Clear` from the source: scan the directory, then for every
entry run `nerr = os.RemoveAll(...)` — the loop variable `nerr` is
overwritten on every iteration, so the value returned is the outcome of
the final removal attempt only. -/
def Clear (d : Dir) (scanFail : Bool) : Dir × Option String :=
  if scanFail then (d, some scanFailMsg)
  else
    d.foldl
      (fun acc ne =>
        if ne.2.removeFails then (acc.1 ++ [ne], some removeFailMsg)
        else (acc.1, none))
      ([], none)

/-- The outcome `Clear` reports: the result of removing the last entry
of the scan, `none` for an empty directory. -/
def lastRemoveOutcome : Dir → Option String
  | [] => none
  | [ne] => if ne.2.removeFails then some removeFailMsg else none
  | _ :: ne :: rest => lastRemoveOutcome (ne :: rest)

/-- `FSCache.Unset` from the source: stat the key; absent → false;
present → `os.Remove` (whose error the source discards) and return
true.  When the removal fails the entry therefore stays while `Unset`
still reports true. -/
def Unset (d : Dir) (key : String) : Bool × Dir :=
  match findEntry d key with
  | none => (false, d)
  | some e => (true, if e.removeFails then d else eraseKey d key)

/-- The expiry test of `ClearExpired`: a non-directory entry whose age
`now - modTime` strictly exceeds `age` (no positivity guard in the
source, unlike `GetExpiry`). -/
def expiredF (age now : Int) (e : Entry) : Bool :=
  !e.isDir && decide (now - e.modTime > age)

/-- Error text produced when `os.Remove` fails inside `ClearExpired`. -/
def clearExpiredFailMsg : String := "failed to clear expired"

/-- The entry loop of `ClearExpired`: walk the scanned entries in order,
remove each expired non-directory one, and return at once — leaving the
remaining entries untouched — when a removal fails. -/
def clearExpiredLoop (age now : Int) : Dir → Dir × Option String
  | [] => ([], none)
  | (n, e) :: rest =>
    if expiredF age now e then
      if e.removeFails then ((n, e) :: rest, some clearExpiredFailMsg)
      else clearExpiredLoop age now rest
    else
      let r := clearExpiredLoop age now rest
      ((n, e) :: r.1, r.2)

/-- `FSCache.ClearExpired` from the source: scan the directory (an error
is reported), then run the removal loop. -/
def ClearExpired (d : Dir) (age : Int) (now : Int) (scanFail : Bool) :
    Dir × Option String :=
  if scanFail then (d, some scanFailMsg)
  else clearExpiredLoop age now d

/-- Outcome of calling a Go method: either a returned value or a runtime
panic (here: the nil-pointer dereference of a nil receiver). -/
inductive GoOut (α : Type) where
  | crash
  | ret (a : α)
deriving DecidableEq

/-- Error text of the explicit nil-receiver guard in `Set`. -/
def nilRecvMsg : String := "uninitialized filesystem cache given"

/-- `Set` as called on a possibly-nil `*FSCache` receiver: the source
checks `fc == nil` first and returns an error value, so a nil receiver
never crashes. -/
def setRecv (fc : Option Dir) (key : String) (value : Option Bytes)
    (now : Int) (env : SetEnv) : GoOut (Except String Dir) :=
  match fc with
  | none => .ret (.error nilRecvMsg)
  | some d => .ret (Set d key value now env)

/-- `List` on a possibly-nil receiver: `fc.path` is dereferenced at
once, so a nil receiver panics. -/
def listRecv (fc : Option Dir) (scanFail : Bool) :
    GoOut (Except String (List String)) :=
  match fc with
  | none => .crash
  | some d => .ret (ListOp d scanFail)

/-- `GetExpiry` on a possibly-nil receiver: dereferences `fc.path`. -/
def getExpiryRecv (fc : Option Dir) (key : String) (maxAge now : Int) :
    GoOut (Option Bytes) :=
  match fc with
  | none => .crash
  | some d => .ret (GetExpiry d key maxAge now)

/-- `Get` on a possibly-nil receiver: calls `GetExpiry`, which
dereferences `fc.path`. -/
def getRecv (fc : Option Dir) (key : String) (now : Int) :
    GoOut (Option Bytes) :=
  match fc with
  | none => .crash
  | some d => .ret (Get d key now)

/-- `Clear` on a possibly-nil receiver: dereferences `fc.path`. -/
def clearRecv (fc : Option Dir) (scanFail : Bool) :
    GoOut (Dir × Option String) :=
  match fc with
  | none => .crash
  | some d => .ret (Clear d scanFail)

/-- `Unset` on a possibly-nil receiver: dereferences `fc.path`. -/
def unsetRecv (fc : Option Dir) (key : String) : GoOut (Bool × Dir) :=
  match fc with
  | none => .crash
  | some d => .ret (Unset d key)

/-- `ClearExpired` on a possibly-nil receiver: dereferences `fc.path`. -/
def clearExpiredRecv (fc : Option Dir) (age now : Int) (scanFail : Bool) :
    GoOut (Dir × Option String) :=
  match fc with
  | none => .crash
  | some d => .ret (ClearExpired d age now scanFail)

/-- `Len` on a possibly-nil receiver: dereferences `fc.path`. -/
def lenRecv (fc : Option Dir) (scanFail : Bool) : GoOut Nat :=
  match fc with
  | none => .crash
  | some d => .ret (Len d scanFail)

/-- The process-wide instance registry (`instanceMap` in the source).
Instance identity is modelled by allocation order: `nextId` numbers the
`*FSCache` objects ever constructed, and `assign` maps each path string
to the identity of the instance recorded for it. -/
structure Registry where
  nextId : Nat
  assign : List (String × Nat)
deriving DecidableEq

/-- The registry as initialised by the package's `init`: empty. -/
def initRegistry : Registry := { nextId := 0, assign := [] }

/-- Lookup in the registry mapping (`instanceMap.instance[path]`). -/
def findAssign : List (String × Nat) → String → Option Nat
  | [], _ => none
  | (p, i) :: rest, q => if p = q then some i else findAssign rest q

/-- `fscache.GetInstance` from the source, under the mutex: return the
recorded instance for the exact path string if one exists; otherwise
construct a new one — `newOk` is the outcome of `New`'s directory
validation probe — and record it only on success.  A construction
failure records nothing. -/
def GetInstance (r : Registry) (p : String) (newOk : Bool) :
    Option Nat × Registry :=
  match findAssign r.assign p with
  | some i => (some i, r)
  | none =>
    if newOk then
      (some r.nextId,
       { nextId := r.nextId + 1, assign := (p, r.nextId) :: r.assign })
    else (none, r)

/-- Run a sequence of `GetInstance` calls (path and construction
outcome for each) against the registry. -/
def runCalls (r : Registry) : List (String × Bool) → Registry
  | [] => r
  | (p, ok) :: rest => runCalls (GetInstance r p ok).2 rest

end FSCache

namespace TattlerGo

open FSCache

/-- `strings.TrimSpace`: drop leading and trailing whitespace. -/
def goTrim (s : String) : String :=
  ⟨((s.data.dropWhile Char.isWhitespace).reverse.dropWhile
      Char.isWhitespace).reverse⟩

/-- Bytes of a Go string, as in the `[]byte(requrl)` conversion. -/
def strBytes (s : String) : Bytes :=
  s.toUTF8.toList.map (fun b => b.toNat)

/-- The world `PersistTask` acts on: the process-wide registry plus the
content of every persistence directory, indexed by path string. -/
structure World where
  reg : Registry
  dirs : String → Dir

/-- Per-call environment of `PersistTask`: the outcome of constructing a
store when the registry misses (`New`'s probe), the `Set` environments
of the two writes, the current time, and the generated task name — in
the source `fmt.Sprintf` of `time.Now().Unix()` and a random hex
suffix, both environment-chosen. -/
structure PersistEnv where
  newOk : Bool
  urlEnv : SetEnv
  bodyEnv : SetEnv
  nowUnix : Int
  taskId : String

/-- Error text when `fscache.GetInstance` fails inside `PersistTask`. -/
def loadCacheFailMsg : String := "failed to load cache to persist task"

/-- Error text when persisting the URL part fails. -/
def persistUrlFailMsg : String := "failed to persist request URL part"

/-- Error text when persisting the body part fails. -/
def persistBodyFailMsg : String := "failed to persist request body part"

/-- `TattlerClientHTTP.PersistTask` from the source: an empty
`PersistencyDir` returns an empty task name and no error at once;
otherwise obtain the store for the directory via the registry, write
the `_url` record, then the `_body` record, returning an empty task
name with the error on any failure, and the task name on success. -/
def PersistTask (dir : String) (w : World) (env : PersistEnv)
    (requrl : String) (reqbody : Bytes) :
    (String × Option String) × World :=
  if dir = "" then (("", none), w)
  else
    match FSCache.GetInstance w.reg dir env.newOk with
    | (none, r1) => (("", some loadCacheFailMsg), { w with reg := r1 })
    | (some _, r1) =>
      let w1 : World := { w with reg := r1 }
      let d0 := w1.dirs dir
      match FSCache.Set d0 (env.taskId ++ "_url") (some (strBytes requrl))
          env.nowUnix env.urlEnv with
      | .error _ => (("", some persistUrlFailMsg), w1)
      | .ok d1 =>
        let w2 : World :=
          { w1 with dirs := fun p => if p = dir then d1 else w1.dirs p }
        match FSCache.Set d1 (env.taskId ++ "_body") (some reqbody)
            env.nowUnix env.bodyEnv with
        | .error _ => (("", some persistBodyFailMsg), w2)
        | .ok d2 =>
          ((env.taskId, none),
           { w2 with dirs := fun p => if p = dir then d2 else w2.dirs p })

/-- Error text for an empty recipient or event name. -/
def emptyArgsMsg : String := "empty recipient or event_name provided"

/-- Error text wrapping a URL-construction failure. -/
def urlBuildFailMsg : String := "failed to assemble URL for notification server"

/-- Error text wrapping a JSON-encoding failure. -/
def jsonBuildFailMsg : String := "failed to encode params"

/-- `TattlerClientHTTP.PrepareNotification` from the source: reject a
blank recipient or event name; build the request URL and the JSON body
— both out-of-scope collaborators here, so their outcomes `urlRes` and
`jsonRes` are call parameters; then attempt `PersistTask`, whose error
is only logged: the call still returns the URL, the body, whatever task
name `PersistTask` produced, and a nil error. -/
def PrepareNotification (dir recipient eventName : String)
    (urlRes : Except String String) (jsonRes : Except String Bytes)
    (env : PersistEnv) (w : World) :
    Except String (String × Bytes × String) × World :=
  if goTrim recipient = "" || goTrim eventName = "" then
    (.error emptyArgsMsg, w)
  else
    match urlRes with
    | .error _ => (.error urlBuildFailMsg, w)
    | .ok urlstr =>
      match jsonRes with
      | .error _ => (.error jsonBuildFailMsg, w)
      | .ok body =>
        let pr := PersistTask dir w env urlstr body
        (.ok (urlstr, body, pr.1.1), pr.2)

end TattlerGo

namespace FSCache

theorem findEntry_append (l1 l2 : Dir) (k : String) :
    findEntry (l1 ++ l2) k =
      match findEntry l1 k with
      | some e => some e
      | none => findEntry l2 k := by
  induction l1 with
  | nil => rfl
  | cons ne rest ih =>
    by_cases h : ne.1 = k <;> simp [findEntry, h, ih]

theorem findEntry_eraseKey_self (d : Dir) (k : String) :
    findEntry (eraseKey d k) k = none := by
  induction d with
  | nil => rfl
  | cons ne rest ih =>
    by_cases h : ne.1 = k
    · simpa [eraseKey, List.filter_cons, h] using ih
    · simpa [eraseKey, List.filter_cons, h, findEntry] using ih

theorem findEntry_setKey_self (d : Dir) (k : String) (v : Bytes) (now : Int) :
    findEntry (setKey d k v now) k = some (mkFile v now) := by
  rw [setKey, findEntry_append, findEntry_eraseKey_self]
  simp [findEntry]

/-- Claim C2: after `Set(K, V)` a `Get(K)` returns exactly `V` for a
present value, with an empty value stored and returned as a present
zero-length record distinct from absent; a nil value is a no-op success
leaving the store unchanged, so `Get` still sees the prior state. -/
theorem set_get_roundtrip (d : Dir) (key : String) (v : Bytes)
    (now now2 : Int) (env : SetEnv)
    (h1 : env.tmpFail = false) (h2 : env.writeFail = false)
    (h3 : env.renameFail = false) :
    Set d key none now env = .ok d ∧
    Set d key (some v) now env = .ok (setKey d key v now) ∧
    Get (setKey d key v now) key now2 = some v ∧
    Get (setKey d key [] now) key now2 = some ([] : Bytes) ∧
    some ([] : Bytes) ≠ (none : Option Bytes) ∧
    (findEntry d key = none → Get d key now2 = none) ∧
    (∀ e, findEntry d key = some e → e.isDir = false →
      Get d key now2 = some e.content) := by
  refine ⟨rfl, by simp [Set, h1, h2, h3], ?_, ?_, by simp, ?_, ?_⟩
  · simp [Get, GetExpiry, findEntry_setKey_self, mkFile]
  · simp [Get, GetExpiry, findEntry_setKey_self, mkFile]
  · intro h
    simp [Get, GetExpiry, h]
  · intro e he hdir
    simp [Get, GetExpiry, he, hdir]

theorem set_get_roundtrip_witness :
    Get (setKey [] "k" [7] 0) "k" 1 = some [7] ∧
    Set ([] : Dir) "k" (some [7]) 0 ⟨false, false, false, "k.t1"⟩ =
      .ok (setKey [] "k" [7] 0) :=
  ⟨(set_get_roundtrip [] "k" [7] 0 1 ⟨false, false, false, "k.t1"⟩
      rfl rfl rfl).2.2.1,
   (set_get_roundtrip [] "k" [7] 0 1 ⟨false, false, false, "k.t1"⟩
      rfl rfl rfl).2.1⟩

/-- Claim C3: `GetExpiry(K, maxAge)` is absent exactly when no
non-directory record for `K` exists, or `maxAge` is positive and the
record's age `now - modTime` strictly exceeds it; a non-positive
`maxAge` disables the age check, so a present record's content is
always returned. -/
theorem getExpiry_absent_iff (d : Dir) (key : String) (maxAge now : Int) :
    (GetExpiry d key maxAge now = none ↔
      (∀ e, findEntry d key = some e → e.isDir = true) ∨
      (∃ e, findEntry d key = some e ∧ 0 < maxAge ∧
        now - e.modTime > maxAge)) ∧
    (maxAge ≤ 0 → ∀ e, findEntry d key = some e → e.isDir = false →
      GetExpiry d key maxAge now = some e.content) := by
  constructor
  · cases hf : findEntry d key with
    | none => simp [GetExpiry, hf]
    | some e =>
      by_cases hexp : 0 < maxAge ∧ now - e.modTime > maxAge
      · simp [GetExpiry, hf, hexp]
      · by_cases hd : e.isDir <;> simp [GetExpiry, hf, hexp, hd]
  · intro hle e he hdir
    have hnot : ¬(0 < maxAge ∧ now - e.modTime > maxAge) := by
      intro hc
      exact absurd hle (not_le.mpr hc.1)
    simp [GetExpiry, he, hdir, hnot]

theorem getExpiry_absent_iff_witness :
    GetExpiry [("k", mkFile [7] 0)] "k" (-1) 100 = some [7] :=
  (getExpiry_absent_iff [("k", mkFile [7] 0)] "k" (-1) 100).2
    (by decide) (mkFile [7] 0) rfl rfl

/-- Claim C7 fails as stated: on an entry whose removal fails (the
source discards the `os.Remove` error), `Unset` returns true although
no removal occurred, and returns true again on the repeated call. -/
theorem unset_true_without_removal :
    Unset [("k", ⟨false, [1], 0, true⟩)] "k" =
      (true, [("k", ⟨false, [1], 0, true⟩)]) ∧
    (Unset (Unset [("k", ⟨false, [1], 0, true⟩)] "k").2 "k").1 = true := by
  decide

/-- Claim C7 (amended): `Unset(K)` returns true exactly when an entry
for `K` exists at call time — the removal is attempted but its error is
discarded, so true does not imply the record was removed.  On an absent
key it returns false and changes nothing; when the removal succeeds the
record is erased, so the repeated call returns false. -/
theorem unset_reports_presence (d : Dir) (k : String) :
    ((Unset d k).1 = true ↔ ∃ e, findEntry d k = some e) ∧
    (findEntry d k = none → Unset d k = (false, d)) ∧
    (∀ e, findEntry d k = some e → e.removeFails = false →
      Unset d k = (true, eraseKey d k) ∧
      Unset (eraseKey d k) k = (false, eraseKey d k)) := by
  refine ⟨?_, ?_, ?_⟩
  · cases hf : findEntry d k <;> simp [Unset, hf]
  · intro h
    simp [Unset, h]
  · intro e he hrf
    exact ⟨by simp [Unset, he, hrf], by simp [Unset, findEntry_eraseKey_self]⟩

theorem unset_reports_presence_witness :
    Unset [("k", mkFile [7] 0)] "k" = (true, eraseKey [("k", mkFile [7] 0)] "k") ∧
    Unset (eraseKey [("k", mkFile [7] 0)] "k") "k" =
      (false, eraseKey [("k", mkFile [7] 0)] "k") :=
  (unset_reports_presence [("k", mkFile [7] 0)] "k").2.2 (mkFile [7] 0) rfl rfl

theorem clearFold_eq (d : Dir) : ∀ acc : Dir × Option String,
    d.foldl
      (fun acc ne =>
        if ne.2.removeFails then (acc.1 ++ [ne], some removeFailMsg)
        else (acc.1, none)) acc =
    (acc.1 ++ d.filter (fun ne => ne.2.removeFails),
     match d with
     | [] => acc.2
     | _ => lastRemoveOutcome d) := by
  induction d with
  | nil => intro acc; simp
  | cons ne rest ih =>
    intro acc
    rw [List.foldl_cons, ih]
    cases rest with
    | nil =>
      by_cases h : ne.2.removeFails <;>
        simp [h, lastRemoveOutcome, List.filter_cons]
    | cons ne2 rest2 =>
      by_cases h : ne.2.removeFails <;>
        simp [h, lastRemoveOutcome, List.filter_cons]

theorem lastRemoveOutcome_of_no_fail (d : Dir)
    (h : ∀ ne ∈ d, ne.2.removeFails = false) :
    lastRemoveOutcome d = none := by
  induction d with
  | nil => rfl
  | cons ne rest ih =>
    cases rest with
    | nil => simp [lastRemoveOutcome, h ne (List.mem_singleton.mpr rfl)]
    | cons ne2 rest2 =>
      exact ih (fun x hx => h x (List.mem_cons_of_mem ne hx))

theorem filter_removeFails_of_no_fail (d : Dir)
    (h : ∀ ne ∈ d, ne.2.removeFails = false) :
    d.filter (fun ne => ne.2.removeFails) = [] := by
  induction d with
  | nil => rfl
  | cons ne rest ih =>
    rw [List.filter_cons]
    simp [h ne (List.mem_cons_self ne rest),
      ih (fun x hx => h x (List.mem_cons_of_mem ne hx))]

/-- Claim C6 fails as stated: with a first entry whose removal fails and
a second whose removal succeeds, `Clear` leaves an entry behind (so a
removal failure occurred and `Len` stays 1) yet reports no failure at
all, because the loop variable holding the removal error is overwritten
by the later successful removal. -/
theorem clear_drops_earlier_failure :
    Clear [("a", ⟨false, [], 0, true⟩), ("b", ⟨false, [], 0, false⟩)] false =
      ([("a", ⟨false, [], 0, true⟩)], none) ∧
    Len [("a", ⟨false, [], 0, true⟩)] false = 1 := by
  decide

/-- Claim C6 (amended): `Clear` attempts to remove every entry under the
root and keeps exactly those whose removal fails, but the error it
returns is only the outcome of the final removal attempt (none for an
empty root), so earlier failures are not reported when the last removal
succeeds; when every removal succeeds the root is left empty, with
`Len() = 0` and `List()` returning the empty sequence. -/
theorem clear_last_attempt_outcome (d : Dir) :
    Clear d false =
      (d.filter (fun ne => ne.2.removeFails), lastRemoveOutcome d) ∧
    ((∀ ne ∈ d, ne.2.removeFails = false) →
      Clear d false = ([], none) ∧
      Len (Clear d false).1 false = 0 ∧
      ListOp (Clear d false).1 false = .ok []) := by
  have hchar : Clear d false =
      (d.filter (fun ne => ne.2.removeFails), lastRemoveOutcome d) := by
    rw [Clear]
    simp only [if_false, clearFold_eq d ([], none)]
    cases d with
    | nil => rfl
    | cons ne rest => simp
  refine ⟨hchar, ?_⟩
  intro h
  have hc : Clear d false = ([], none) := by
    rw [hchar, filter_removeFails_of_no_fail d h, lastRemoveOutcome_of_no_fail d h]
  exact ⟨hc, by rw [hc]; rfl, by rw [hc]; rfl⟩

theorem clear_last_attempt_outcome_witness :
    Clear [("x", mkFile [1] 0)] false = ([], none) :=
  ((clear_last_attempt_outcome [("x", mkFile [1] 0)]).2 (by decide)).1

theorem clearExpiredLoop_no_fail (age now : Int) (d : Dir)
    (h : ∀ ne ∈ d, expiredF age now ne.2 = true → ne.2.removeFails = false) :
    clearExpiredLoop age now d =
      (d.filter (fun ne => !expiredF age now ne.2), none) := by
  induction d with
  | nil => rfl
  | cons ne rest ih =>
    obtain ⟨n, e⟩ := ne
    have hrest := ih (fun x hx hex => h x (List.mem_cons_of_mem (n, e) hx) hex)
    by_cases he : expiredF age now e = true
    · have hrf : e.removeFails = false :=
        h (n, e) (List.mem_cons_self (n, e) rest) he
      simp [clearExpiredLoop, he, hrf, hrest, List.filter_cons]
    · simp [clearExpiredLoop, he, hrest, List.filter_cons]

theorem clearExpiredLoop_first_fail (age now : Int) (d1 : Dir) (n : String)
    (e : Entry) (d2 : Dir)
    (he : expiredF age now e = true) (hrf : e.removeFails = true)
    (h1 : ∀ ne ∈ d1, expiredF age now ne.2 = true → ne.2.removeFails = false) :
    clearExpiredLoop age now (d1 ++ (n, e) :: d2) =
      (d1.filter (fun ne => !expiredF age now ne.2) ++ (n, e) :: d2,
       some clearExpiredFailMsg) := by
  induction d1 with
  | nil => simp [clearExpiredLoop, he, hrf]
  | cons ne0 rest ih =>
    obtain ⟨n0, e0⟩ := ne0
    have hrest := ih (fun x hx hex => h1 x (List.mem_cons_of_mem (n0, e0) hx) hex)
    by_cases he0 : expiredF age now e0 = true
    · have hrf0 : e0.removeFails = false :=
        h1 (n0, e0) (List.mem_cons_self (n0, e0) rest) he0
      simp [clearExpiredLoop, he0, hrf0, hrest, List.filter_cons]
    · simp [clearExpiredLoop, he0, hrest, List.filter_cons]

theorem len_filter_expired_core (age now : Int) (d : Dir) :
    ((d.filter (fun ne => !expiredF age now ne.2)).filter
        (fun ne => !ne.2.isDir)).length
      + (d.filter (fun ne => expiredF age now ne.2)).length
    = (d.filter (fun ne => !ne.2.isDir)).length := by
  induction d with
  | nil => rfl
  | cons ne rest ih =>
    obtain ⟨n, e⟩ := ne
    by_cases hd : e.isDir
    · have hex : expiredF age now e = false := by simp [expiredF, hd]
      simpa [List.filter_cons, hex, hd] using ih
    · by_cases hex : expiredF age now e = true
      · simp [List.filter_cons, hex, hd] at ih ⊢
        omega
      · simp only [Bool.not_eq_true] at hex
        simp [List.filter_cons, hex, hd] at ih ⊢
        omega

theorem len_filter_expired_add (age now : Int) (d : Dir) :
    Len (d.filter (fun ne => !expiredF age now ne.2)) false
      + (d.filter (fun ne => expiredF age now ne.2)).length
    = Len d false := by
  simp only [Len]
  exact len_filter_expired_core age now d

/-- Claim C4: when no removal fails, `ClearExpired(age)` removes exactly
the non-directory records whose age strictly exceeds `age` and leaves
all other entries unchanged, with `Len` decreasing by exactly the
removed count; when a removal fails, it stops at the first failing
expired entry and reports the failure, with the expired entries before
it removed and everything from the failing entry on untouched. -/
theorem clearExpired_exact (d : Dir) (age now : Int) :
    ((∀ ne ∈ d, expiredF age now ne.2 = true → ne.2.removeFails = false) →
      ClearExpired d age now false =
        (d.filter (fun ne => !expiredF age now ne.2), none) ∧
      Len (ClearExpired d age now false).1 false
        + (d.filter (fun ne => expiredF age now ne.2)).length
        = Len d false) ∧
    (∀ d1 n e d2, d = d1 ++ (n, e) :: d2 →
      expiredF age now e = true → e.removeFails = true →
      (∀ ne ∈ d1, expiredF age now ne.2 = true → ne.2.removeFails = false) →
      ClearExpired d age now false =
        (d1.filter (fun ne => !expiredF age now ne.2) ++ (n, e) :: d2,
         some clearExpiredFailMsg)) := by
  constructor
  · intro h
    have hc : ClearExpired d age now false =
        (d.filter (fun ne => !expiredF age now ne.2), none) :=
      clearExpiredLoop_no_fail age now d h
    refine ⟨hc, ?_⟩
    rw [hc]
    exact len_filter_expired_add age now d
  · intro d1 n e d2 hdec he hrf h1
    subst hdec
    exact clearExpiredLoop_first_fail age now d1 n e d2 he hrf h1

theorem clearExpired_exact_witness :
    ClearExpired
      [("old", ⟨false, [1], 0, false⟩), ("new", ⟨false, [2], 10, false⟩)]
      5 11 false
    = ([("new", ⟨false, [2], 10, false⟩)], none) :=
  (((clearExpired_exact
      [("old", ⟨false, [1], 0, false⟩), ("new", ⟨false, [2], 10, false⟩)]
      5 11).1 (by decide)).1).trans (by decide)

/-- Claim C5 fails as stated: the source discards the `os.Rename` error,
so when the rename into place fails `Set` still returns success, the
temporary file stays behind under its temporary name, and the value is
not installed under the key — `Get` finds nothing. -/
theorem set_ok_despite_rename_failure :
    Set [] "k" (some [1]) 0 ⟨false, false, true, "k.t1"⟩ =
      .ok [("k.t1", mkFile [1] 0)] ∧
    Get [("k.t1", mkFile [1] 0)] "k" 0 = none :=
  ⟨rfl, by decide⟩

/-- Claim C5 (amended): `Set` reports failure when the temporary-file
creation or the write fails, and on write failure the temporary
artifact is removed, leaving the directory unchanged (an `error` result
carries the unchanged directory); but a failure of the rename into
place is not detected: `Set` then returns success with the value stored
only under the temporary name, not under `K`.  Only when the rename
succeeds is the value installed under `K`, where `Get` returns it. -/
theorem set_reports_tmp_and_write_failures (d : Dir) (key : String)
    (v : Bytes) (now now2 : Int) (env : SetEnv) :
    (env.tmpFail = true → Set d key (some v) now env = .error tmpFailMsg) ∧
    (env.tmpFail = false → env.writeFail = true →
      Set d key (some v) now env = .error writeFailMsg) ∧
    (env.tmpFail = false → env.writeFail = false → env.renameFail = false →
      Set d key (some v) now env = .ok (setKey d key v now) ∧
      Get (setKey d key v now) key now2 = some v) ∧
    (env.tmpFail = false → env.writeFail = false → env.renameFail = true →
      Set d key (some v) now env = .ok (setKey d env.tmpName v now)) := by
  refine ⟨?_, ?_, ?_, ?_⟩
  · intro h1
    simp [Set, h1]
  · intro h1 h2
    simp [Set, h1, h2]
  · intro h1 h2 h3
    exact ⟨by simp [Set, h1, h2, h3],
      by simp [Get, GetExpiry, findEntry_setKey_self, mkFile]⟩
  · intro h1 h2 h3
    simp [Set, h1, h2, h3]

theorem set_reports_tmp_and_write_failures_witness :
    Set ([] : Dir) "k" (some [2]) 0 ⟨false, true, false, "k.t2"⟩ =
      .error writeFailMsg :=
  (set_reports_tmp_and_write_failures [] "k" [2] 0 0
    ⟨false, true, false, "k.t2"⟩).2.1 rfl rfl

theorem findAssign_stable (r : Registry) (q : String) (ok : Bool)
    (p : String) (i : Nat) (h : findAssign r.assign p = some i) :
    findAssign (GetInstance r q ok).2.assign p = some i := by
  rw [GetInstance]
  cases hq : findAssign r.assign q with
  | some j => exact h
  | none =>
    cases ok with
    | false => exact h
    | true =>
      simp only [findAssign]
      by_cases hpq : q = p
      · rw [hpq] at hq
        rw [hq] at h
        exact absurd h (by simp)
      · simp [hpq, h]

theorem findAssign_runCalls_stable (calls : List (String × Bool))
    (r : Registry) (p : String) (i : Nat)
    (h : findAssign r.assign p = some i) :
    findAssign (runCalls r calls).assign p = some i := by
  induction calls generalizing r with
  | nil => exact h
  | cons c rest ih =>
    obtain ⟨q, ok⟩ := c
    exact ih (GetInstance r q ok).2 (findAssign_stable r q ok p i h)

theorem getInstance_hit (r : Registry) (p : String) (ok : Bool) (i : Nat)
    (h : findAssign r.assign p = some i) :
    GetInstance r p ok = (some i, r) := by
  rw [GetInstance, h]

theorem getInstance_success_recorded (r : Registry) (p : String) (ok : Bool)
    (i : Nat) (h : (GetInstance r p ok).1 = some i) :
    findAssign (GetInstance r p ok).2.assign p = some i := by
  cases hq : findAssign r.assign p with
  | some j =>
    rw [getInstance_hit r p ok j hq] at h ⊢
    exact hq.trans h
  | none =>
    cases ok with
    | false => simp [GetInstance, hq] at h
    | true =>
      simp only [GetInstance, hq] at h ⊢
      simp only [findAssign, if_pos rfl]
      simpa using h

theorem not_mem_of_findAssign_none (l : List (String × Nat)) (p : String)
    (h : findAssign l p = none) : p ∉ l.map Prod.fst := by
  induction l with
  | nil => simp
  | cons e rest ih =>
    obtain ⟨q, j⟩ := e
    by_cases hq : q = p
    · rw [findAssign, if_pos hq] at h
      exact absurd h (by simp)
    · rw [findAssign, if_neg hq] at h
      simp only [List.map_cons, List.mem_cons]
      intro hc
      rcases hc with hc | hc
      · exact hq hc.symm
      · exact ih h hc

theorem getInstance_keys_nodup (r : Registry) (p : String) (ok : Bool)
    (h : (r.assign.map Prod.fst).Nodup) :
    ((GetInstance r p ok).2.assign.map Prod.fst).Nodup := by
  cases hq : findAssign r.assign p with
  | some j =>
    rw [getInstance_hit r p ok j hq]
    exact h
  | none =>
    cases ok with
    | false =>
      rw [GetInstance, hq]
      exact h
    | true =>
      rw [GetInstance, hq]
      show (((p, r.nextId) :: r.assign).map Prod.fst).Nodup
      simp only [List.map_cons, List.nodup_cons]
      exact ⟨not_mem_of_findAssign_none r.assign p hq, h⟩

theorem runCalls_keys_nodup (calls : List (String × Bool)) (r : Registry)
    (h : (r.assign.map Prod.fst).Nodup) :
    ((runCalls r calls).assign.map Prod.fst).Nodup := by
  induction calls generalizing r with
  | nil => exact h
  | cons c rest ih =>
    obtain ⟨q, ok⟩ := c
    exact ih (GetInstance r q ok).2 (getInstance_keys_nodup r q ok h)

/-- Claim C1: two successful `GetInstance(P)` calls — however many other
calls happen in between — return the identical instance; the registry
keys stay free of duplicates from the initial state, so at most one live
instance exists per distinct path string; a lookup hit returns the
recorded instance without touching the registry; and a construction
failure on a miss records nothing, so it is retried rather than cached. -/
theorem getInstance_unique_per_path (pre mid : List (String × Bool))
    (p : String) (ok1 ok2 : Bool) (i1 i2 : Nat) :
    ((GetInstance (runCalls initRegistry pre) p ok1).1 = some i1 →
      (GetInstance
        (runCalls (GetInstance (runCalls initRegistry pre) p ok1).2 mid)
        p ok2).1 = some i2 →
      i1 = i2) ∧
    ((runCalls initRegistry pre).assign.map Prod.fst).Nodup ∧
    (∀ r : Registry, ∀ j : Nat, findAssign r.assign p = some j →
      GetInstance r p ok1 = (some j, r)) ∧
    (∀ r : Registry, findAssign r.assign p = none → ok1 = false →
      GetInstance r p ok1 = (none, r)) := by
  refine ⟨?_, ?_, ?_, ?_⟩
  · intro h1 h2
    have hrec := getInstance_success_recorded (runCalls initRegistry pre) p ok1 i1 h1
    have hmid := findAssign_runCalls_stable mid
      (GetInstance (runCalls initRegistry pre) p ok1).2 p i1 hrec
    have hhit := getInstance_hit
      (runCalls (GetInstance (runCalls initRegistry pre) p ok1).2 mid) p ok2 i1 hmid
    rw [hhit] at h2
    simpa using h2
  · exact runCalls_keys_nodup pre initRegistry (by simp [initRegistry])
  · intro r j hj
    exact getInstance_hit r p ok1 j hj
  · intro r hn hok
    rw [GetInstance, hn, hok]
    simp

theorem getInstance_unique_per_path_witness :
    (GetInstance (runCalls initRegistry []) "a" true).1 = some 0 ∧
    (GetInstance
      (runCalls (GetInstance (runCalls initRegistry []) "a" true).2
        [("b", true)]) "a" true).1 = some 0 ∧
    (0 : Nat) = 0 :=
  ⟨by decide, by decide,
   (getInstance_unique_per_path [] [("b", true)] "a" true true 0 0).1
     (by decide) (by decide)⟩

/-- Claim C9: called on a nil receiver, `Set` hits its explicit guard
and returns an error value for every key and value — it never crashes —
while every other public store operation dereferences the receiver at
once and panics, so `Set` is the only operation with a nil-receiver
guard at the public interface. -/
theorem set_only_nil_guard (key : String) (value : Option Bytes)
    (now maxAge age : Int) (env : SetEnv) (scanFail : Bool) :
    setRecv none key value now env = .ret (.error nilRecvMsg) ∧
    listRecv none scanFail = .crash ∧
    getRecv none key now = .crash ∧
    getExpiryRecv none key maxAge now = .crash ∧
    clearRecv none scanFail = .crash ∧
    unsetRecv none key = .crash ∧
    clearExpiredRecv none age now scanFail = .crash ∧
    lenRecv none scanFail = .crash :=
  ⟨rfl, rfl, rfl, rfl, rfl, rfl, rfl, rfl⟩

end FSCache

namespace TattlerGo

open FSCache

theorem persistTask_error_empty_taskname (dir : String) (w : World)
    (env : PersistEnv) (u : String) (b : Bytes)
    (h : ((PersistTask dir w env u b).1.2).isSome = true) :
    (PersistTask dir w env u b).1.1 = "" := by
  by_cases hd : dir = ""
  · simp [PersistTask, hd] at h
  · rcases hgi : FSCache.GetInstance w.reg dir env.newOk with ⟨o, r1⟩
    cases o with
    | none => simp [PersistTask, hd, hgi]
    | some j =>
      cases hu : FSCache.Set (w.dirs dir) (env.taskId ++ "_url")
          (some (strBytes u)) env.nowUnix env.urlEnv with
      | error m => simp [PersistTask, hd, hgi, hu]
      | ok d1 =>
        cases hb : FSCache.Set d1 (env.taskId ++ "_body") (some b)
            env.nowUnix env.bodyEnv with
        | error m => simp [PersistTask, hd, hgi, hu, hb]
        | ok d2 => simp [PersistTask, hd, hgi, hu, hb] at h

/-- Claim C8: a persistence failure never aborts the delivery attempt —
when `PersistTask` reports an error inside `PrepareNotification`, the
call still returns the prepared URL and body with a nil error (and the
empty task name the failed `PersistTask` produced); the failure is only
logged. -/
theorem prepare_survives_persist_failure (dir recipient eventName u : String)
    (b : Bytes) (env : PersistEnv) (w : World)
    (hr : ¬ goTrim recipient = "") (he : ¬ goTrim eventName = "")
    (hp : ((PersistTask dir w env u b).1.2).isSome = true) :
    (PrepareNotification dir recipient eventName (.ok u) (.ok b) env w).1 =
      .ok (u, b, "") := by
  have ht := persistTask_error_empty_taskname dir w env u b hp
  simp [PrepareNotification, hr, he, ht]

theorem prepare_survives_persist_failure_witness :
    (PrepareNotification "p" "r" "e" (.ok "u") (.ok [])
      ⟨false, ⟨false, false, false, "t"⟩, ⟨false, false, false, "t"⟩, 0, "1_a"⟩
      ⟨FSCache.initRegistry, fun _ => []⟩).1 = .ok ("u", [], "") :=
  prepare_survives_persist_failure "p" "r" "e" "u" []
    ⟨false, ⟨false, false, false, "t"⟩, ⟨false, false, false, "t"⟩, 0, "1_a"⟩
    ⟨FSCache.initRegistry, fun _ => []⟩ (by decide) (by decide) rfl

/-- Claim C10: with an empty `PersistencyDir`, `PersistTask` is a no-op
success — empty task name, nil error, the registry untouched (no store
constructed) and every directory untouched (no record written) — and
`PrepareNotification` likewise leaves the world unchanged and, when it
succeeds, returns an empty task name, signalling that no journal entry
exists for the attempt. -/
theorem persistTask_noop_on_empty_dir (w : World) (env : PersistEnv)
    (u recipient eventName : String) (b : Bytes)
    (urlRes : Except String String) (jsonRes : Except String Bytes) :
    PersistTask "" w env u b = (("", none), w) ∧
    (PrepareNotification "" recipient eventName urlRes jsonRes env w).2 = w ∧
    (∀ u2 b2 t,
      (PrepareNotification "" recipient eventName urlRes jsonRes env w).1 =
        .ok (u2, b2, t) → t = "") := by
  refine ⟨rfl, ?_, ?_⟩
  · unfold PrepareNotification
    split
    · rfl
    · cases urlRes with
      | error m => rfl
      | ok urlstr =>
        cases jsonRes with
        | error m => rfl
        | ok body => rfl
  · intro u2 b2 t hok
    unfold PrepareNotification at hok
    split at hok
    · exact absurd hok (by simp)
    · cases urlRes with
      | error m => exact absurd hok (by simp)
      | ok urlstr =>
        cases jsonRes with
        | error m => exact absurd hok (by simp)
        | ok body =>
          simp only [PersistTask] at hok
          simp at hok
          exact hok.2.2.symm

theorem persistTask_noop_on_empty_dir_witness :
    PersistTask "" ⟨FSCache.initRegistry, fun _ => []⟩
      ⟨true, ⟨false, false, false, "t"⟩, ⟨false, false, false, "t"⟩, 0, "2_b"⟩
      "u" [] =
    (("", none), ⟨FSCache.initRegistry, fun _ => []⟩) ∧ ("" : String) = "" :=
  ⟨(persistTask_noop_on_empty_dir ⟨FSCache.initRegistry, fun _ => []⟩
      ⟨true, ⟨false, false, false, "t"⟩, ⟨false, false, false, "t"⟩, 0, "2_b"⟩
      "u" "r" "e" [] (.ok "u") (.ok [])).1,
   (persistTask_noop_on_empty_dir ⟨FSCache.initRegistry, fun _ => []⟩
      ⟨true, ⟨false, false, false, "t"⟩, ⟨false, false, false, "t"⟩, 0, "2_b"⟩
      "u" "r" "e" [] (.ok "u") (.ok [])).2.2 "u" [] "" rfl⟩

end TattlerGo
